import Mathlib

/-!
A shallow embedding of `src/script.js` (client-side interactivity of the
HermesTeam presentation website) together with proofs of the behavioural
properties stated in its specification.

DOM elements are identified by natural numbers; DOM/visual state that a
component reads or mutates is made explicit as record fields; timer-driven
behaviour is embedded as explicit event traces carrying integer timestamps
(one time-unit = one millisecond of the original code).
-/

namespace Script

/-! ## AnimationObserver (src/script.js lines 27-77)

`AnimationObserver` wraps an `IntersectionObserver`; `handleIntersection`
receives batches of entries and, for each intersecting target not yet in the
`animatedElements` set, adds the `aos-animate` class, inserts the target into
the set, and (for counter elements) starts the counter animation. -/

/-- One intersection-observer entry: a target element and its
`isIntersecting` flag. -/
structure Entry where
  target : ℕ
  isIntersecting : Bool
deriving DecidableEq

/-- The `entered` reaction performed for a target: the `aos-animate` class was
added, the target was inserted into `animatedElements`, and when the target
carries the `analytics-number` or `stat-number` class (`counterStarted`) its
counter animation was started. -/
structure Reaction where
  target : ℕ
  counterStarted : Bool
deriving DecidableEq

/-- Body of the `entries.forEach` callback in `handleIntersection`: given the
current `animatedElements` set, process one entry.  Fires exactly when the
entry is intersecting and its target is not yet in the set. -/
def processEntry (isCounter : ℕ → Bool) (s : List ℕ) (e : Entry) :
    List ℕ × List Reaction :=
  if e.isIntersecting && !(s.contains e.target) then
    (e.target :: s, [⟨e.target, isCounter e.target⟩])
  else
    (s, [])

/-- `AnimationObserver.handleIntersection`: fold the entry callback over one
batch of entries, threading the `animatedElements` set and collecting the
emitted reactions. -/
def handleIntersection (isCounter : ℕ → Bool) :
    List ℕ → List Entry → List ℕ × List Reaction
  | s, [] => (s, [])
  | s, e :: rest =>
    let p := processEntry isCounter s e
    let q := handleIntersection isCounter p.1 rest
    (q.1, p.2 ++ q.2)

/-- A whole page lifetime: the observer callback runs once per visibility
recomputation pass, each pass delivering one batch of entries. -/
def runBatches (isCounter : ℕ → Bool) :
    List ℕ → List (List Entry) → List ℕ × List Reaction
  | s, [] => (s, [])
  | s, b :: rest =>
    let p := handleIntersection isCounter s b
    let q := runBatches isCounter p.1 rest
    (q.1, p.2 ++ q.2)

/-- Number of `entered` reactions recorded for element `e` in a trace. -/
def reactionCount (rs : List Reaction) (e : ℕ) : ℕ :=
  rs.countP (fun r => r.target == e)

theorem reactionCount_append (rs₁ rs₂ : List Reaction) (e : ℕ) :
    reactionCount (rs₁ ++ rs₂) e = reactionCount rs₁ e + reactionCount rs₂ e :=
  List.countP_append _ _ _

theorem processEntry_mem_mono (isCounter : ℕ → Bool) (s : List ℕ) (en : Entry)
    (e : ℕ) (h : e ∈ s) : e ∈ (processEntry isCounter s en).1 := by
  unfold processEntry
  split <;> simp_all

theorem processEntry_count (isCounter : ℕ → Bool) (s : List ℕ) (en : Entry)
    (e : ℕ) :
    reactionCount (processEntry isCounter s en).2 e =
      if e ∈ (processEntry isCounter s en).1 ∧ e ∉ s then 1 else 0 := by
  unfold processEntry reactionCount
  simp only [List.contains, List.elem_eq_mem]
  split
  · rename_i h
    simp only [Bool.and_eq_true, Bool.not_eq_true', decide_eq_false_iff_not] at h
    by_cases he : e = en.target
    · subst he
      simp [List.countP_cons, h.2]
    · have h1 : en.target ≠ e := fun hh => he hh.symm
      simp [List.countP_cons, h1, he]
  · simp

theorem handleIntersection_mem_mono (isCounter : ℕ → Bool) (es : List Entry)
    (s : List ℕ) (e : ℕ) (h : e ∈ s) :
    e ∈ (handleIntersection isCounter s es).1 := by
  induction es generalizing s with
  | nil => simpa [handleIntersection]
  | cons en rest ih =>
    simp only [handleIntersection]
    exact ih _ (processEntry_mem_mono isCounter s en e h)

theorem handleIntersection_count (isCounter : ℕ → Bool) (es : List Entry)
    (s : List ℕ) (e : ℕ) :
    reactionCount (handleIntersection isCounter s es).2 e =
      if e ∈ (handleIntersection isCounter s es).1 ∧ e ∉ s then 1 else 0 := by
  induction es generalizing s with
  | nil => simp [handleIntersection, reactionCount]
  | cons en rest ih =>
    simp only [handleIntersection, reactionCount_append]
    rw [processEntry_count, ih]
    by_cases hs : e ∈ s
    · simp [hs, processEntry_mem_mono isCounter s en e hs]
    · by_cases hp : e ∈ (processEntry isCounter s en).1
      · simp [hs, hp, handleIntersection_mem_mono isCounter rest _ e hp]
      · simp [hs, hp]

theorem runBatches_mem_mono (isCounter : ℕ → Bool) (bs : List (List Entry))
    (s : List ℕ) (e : ℕ) (h : e ∈ s) :
    e ∈ (runBatches isCounter s bs).1 := by
  induction bs generalizing s with
  | nil => simpa [runBatches]
  | cons b rest ih =>
    simp only [runBatches]
    exact ih _ (handleIntersection_mem_mono isCounter b s e h)

theorem runBatches_count (isCounter : ℕ → Bool) (bs : List (List Entry))
    (s : List ℕ) (e : ℕ) :
    reactionCount (runBatches isCounter s bs).2 e =
      if e ∈ (runBatches isCounter s bs).1 ∧ e ∉ s then 1 else 0 := by
  induction bs generalizing s with
  | nil => simp [runBatches, reactionCount]
  | cons b rest ih =>
    simp only [runBatches, reactionCount_append]
    rw [handleIntersection_count, ih]
    by_cases hs : e ∈ s
    · simp [hs, handleIntersection_mem_mono isCounter b s e hs]
    · by_cases hp : e ∈ (handleIntersection isCounter s b).1
      · simp [hs, hp, runBatches_mem_mono isCounter rest _ e hp]
      · simp [hs, hp]

/-- **C1.** Starting from the freshly constructed observer (empty
`animatedElements` set), over any sequence of intersection batches — however
often an element's visibility toggles across the threshold — each element
receives the `entered` reaction (class addition, set insertion, counter start)
at most once over the whole page lifetime. -/
theorem entered_at_most_once (isCounter : ℕ → Bool)
    (batches : List (List Entry)) (e : ℕ) :
    reactionCount (runBatches isCounter [] batches).2 e ≤ 1 := by
  rw [runBatches_count]
  split <;> simp

/-! ## animateCounter (src/script.js lines 59-76)

`animateCounter` reads the integer target, sets `increment = target /
(duration / 16)` with `duration = 2000`, and runs the recursive
`updateCounter` frame callback: add `increment` to the running value; while
it is strictly below the target render its floor, otherwise render exactly
the target and stop.  The running value is embedded as a rational; a fuel
argument bounds the recursion depth (126 frames always suffice, as the
correctness theorem shows by instantiating the fuel). -/

/-- The `updateCounter` frame loop: returns the sequence of values rendered
into `element.textContent`, in order. -/
def updateCounter (target : ℤ) (increment : ℚ) : ℚ → ℕ → List ℤ
  | _, 0 => []
  | current, fuel + 1 =>
    let c := current + increment
    if c < (target : ℚ) then ⌊c⌋ :: updateCounter target increment c fuel
    else [target]

/-- `AnimationObserver.animateCounter` for a parsed target: `duration = 2000`,
`increment = target / (duration / 16)`, running value starting at `0`. -/
def animateCounter (target : ℤ) : List ℤ :=
  updateCounter target ((target : ℚ) / (2000 / 16)) 0 126

theorem getLast?_cons_of_getLast? {α : Type} (a : α) {l : List α} {x : α}
    (h : l.getLast? = some x) : (a :: l).getLast? = some x := by
  cases l with
  | nil => simp at h
  | cons b bs => rw [List.getLast?_cons_cons]; exact h

theorem updateCounter_spec (target : ℤ) (inc : ℚ) (hinc : 0 ≤ inc) :
    ∀ (fuel : ℕ) (current : ℚ), 1 ≤ fuel →
      (target : ℚ) ≤ current + fuel * inc → current ≤ (target : ℚ) →
      List.Chain' (· ≤ ·) (⌊current⌋ :: updateCounter target inc current fuel) ∧
      (updateCounter target inc current fuel).getLast? = some target ∧
      ∀ v ∈ updateCounter target inc current fuel, v ≤ target := by
  intro fuel
  induction fuel with
  | zero => intro _ h; omega
  | succ n ih =>
    intro current _ hbound hle
    simp only [updateCounter]
    by_cases hlt : current + inc < (target : ℚ)
    · rw [if_pos hlt]
      have hn : 1 ≤ n := by
        rcases Nat.eq_zero_or_pos n with h0 | h1
        · exfalso
          rw [h0] at hbound
          push_cast at hbound
          linarith
        · exact h1
      have hb' : (target : ℚ) ≤ (current + inc) + n * inc := by
        push_cast at hbound ⊢
        linarith
      obtain ⟨hchain, hlast, hbnd⟩ := ih (current + inc) hn hb' (le_of_lt hlt)
      refine ⟨?_, getLast?_cons_of_getLast? _ hlast, ?_⟩
      · exact List.Chain'.cons (Int.floor_le_floor (by linarith)) hchain
      · intro v hv
        rcases List.mem_cons.mp hv with hv | hv
        · subst hv
          calc ⌊current + inc⌋ ≤ ⌊(target : ℚ)⌋ := Int.floor_le_floor (le_of_lt hlt)
          _ = target := Int.floor_intCast target
        · exact hbnd v hv
    · rw [if_neg hlt]
      have hfl : ⌊current⌋ ≤ target := by
        calc ⌊current⌋ ≤ ⌊(target : ℚ)⌋ := Int.floor_le_floor hle
        _ = target := Int.floor_intCast target
      refine ⟨List.chain'_cons.mpr ⟨hfl, List.chain'_singleton _⟩, by simp, ?_⟩
      intro v hv
      simp only [List.mem_singleton] at hv
      simp [hv]

/-- **C2.** For every target `T ≥ 0`, the sequence of values rendered by
`animateCounter` (increment `T / (duration / tickInterval)`) is monotonically
non-decreasing, the final rendered value is exactly `T`, and no rendered
value ever exceeds `T` (no overshoot, no rounding residue). -/
theorem animateCounter_correct (target : ℤ) (h : 0 ≤ target) :
    List.Chain' (· ≤ ·) (animateCounter target) ∧
    (animateCounter target).getLast? = some target ∧
    ∀ v ∈ animateCounter target, v ≤ target := by
  have ht : (0 : ℚ) ≤ (target : ℚ) := by exact_mod_cast h
  have hinc : 0 ≤ (target : ℚ) / (2000 / 16) := by
    apply div_nonneg ht
    norm_num
  obtain ⟨hchain, hlast, hbnd⟩ := updateCounter_spec target _ hinc 126 0
    (by norm_num)
    (by
      have h125 : (2000 : ℚ) / 16 = 125 := by norm_num
      rw [zero_add, h125, ← mul_div_assoc, le_div_iff₀ (by norm_num : (0:ℚ) < 125)]
      push_cast
      linarith)
    ht
  exact ⟨hchain.tail, hlast, hbnd⟩

/-- Witness for `animateCounter_correct` at the concrete target `7`. -/
theorem animateCounter_correct_witness :
    (0 : ℤ) ≤ 7 ∧ (List.Chain' (· ≤ ·) (animateCounter 7) ∧
      (animateCounter 7).getLast? = some 7 ∧ ∀ v ∈ animateCounter 7, v ≤ 7) :=
  ⟨by norm_num, animateCounter_correct 7 (by norm_num)⟩

/-! ## TelegramAnimator (src/script.js lines 439-524)

`startAnimation` clears the message container and runs the script: for each
message, `addMessage` creates the container element immediately, `typeText`
appends one character every 50 time-units (a tick fires every 50 units; ticks
`1..len` append characters, tick `len+1` clears the interval and resolves),
then the loop awaits a 1500 time-unit delay; after the loop a 5000 time-unit
timeout resets `isAnimating` and restarts the whole script.  The timeline is
embedded as a list of timestamped events, parameterised by the script's
per-message text lengths (`lens`). -/

/-- One entry of the `this.messages` chat script. -/
structure ChatMsg where
  type : String
  text : String

/-- The `this.messages` script of `TelegramAnimator`. -/
def messages : List ChatMsg :=
  [⟨"bot", "Добро пожаловать в HermesTeam! 👋"⟩,
   ⟨"user", "/status проект-А"⟩,
   ⟨"bot", "Проект А: 75% выполнено ✅\n3 активные задачи"⟩,
   ⟨"user", "/create задача \"Подготовить отчет\""⟩,
   ⟨"bot", "Задача создана и назначена! 📋"⟩]

/-- `text.length` of the host language counts UTF-16 code units: astral
code points (≥ `0x10000`) count twice. -/
def utf16Len (s : String) : ℕ :=
  (s.data.map fun c => if 0x10000 ≤ c.toNat then 2 else 1).sum

/-- The per-message lengths of the chat script as `typeText` sees them. -/
def telegramLens : List ℕ := messages.map fun m => utf16Len m.text

/-- A timestamped observable event of the chat timeline. -/
inductive ChatEvent where
  /-- `addMessage` appended the (empty) container element of message `msg`. -/
  | containerCreated (msg : ℕ)
  /-- `typeText` appended character `idx` of message `msg` to its element. -/
  | charTyped (msg : ℕ) (idx : ℕ)
deriving DecidableEq

/-- Events of `typeText` for message `i` started at time `t`: tick `j+1`
(time `t + 50*(j+1)`) appends character `j`. -/
def typeTextEvents (i len t : ℕ) : List (ℕ × ChatEvent) :=
  (List.range len).map fun j => (t + 50 * (j + 1), ChatEvent.charTyped i j)

/-- Time at which `typeText` for a message of length `len` started at `t`
clears its interval and resolves (the tick after the last character). -/
def typeTextEnd (len t : ℕ) : ℕ := t + 50 * (len + 1)

/-- The `for` loop of `startAnimation`, started at time `t` on message index
`i`: create the container, type the text, then wait 1500 time-units before
the next iteration. -/
def runMsgs : ℕ → ℕ → List ℕ → List (ℕ × ChatEvent)
  | _, _, [] => []
  | t, i, len :: rest =>
    (t, ChatEvent.containerCreated i) :: typeTextEvents i len t
      ++ runMsgs (typeTextEnd len t + 1500) (i + 1) rest

/-- Total duration of the message loop for a script with lengths `lens`. -/
def msgsDur : List ℕ → ℕ
  | [] => 0
  | len :: rest => 50 * (len + 1) + 1500 + msgsDur rest

/-- Start time of playback cycle `k`: each cycle runs the message loop
(`msgsDur lens` time-units) and then waits the 5000 time-unit cooldown of
the restart `setTimeout` before `startAnimation` runs again. -/
def cycleStart (lens : List ℕ) (k : ℕ) : ℕ := k * (msgsDur lens + 5000)

/-- The events of playback cycle `k` of the infinite chat loop. -/
def chatCycle (lens : List ℕ) (k : ℕ) : List (ℕ × ChatEvent) :=
  runMsgs (cycleStart lens k) 0 lens

/-- Creation time of message `i`'s container element in cycle `k`. -/
def createTime (lens : List ℕ) (k i : ℕ) : ℕ :=
  cycleStart lens k + msgsDur (lens.take i)

theorem runMsgs_created_mem (lens : List ℕ) :
    ∀ (t0 i0 t j : ℕ),
      ((t, ChatEvent.containerCreated j) ∈ runMsgs t0 i0 lens ↔
        ∃ m < lens.length, j = i0 + m ∧ t = t0 + msgsDur (lens.take m)) := by
  induction lens with
  | nil => simp [runMsgs]
  | cons len rest ih =>
    intro t0 i0 t j
    simp only [runMsgs, List.mem_cons, List.mem_append, typeTextEvents,
      List.mem_map, List.mem_range]
    constructor
    · rintro ((heq | ⟨j', hj', heq⟩) | hmem)
      · simp only [Prod.mk.injEq, ChatEvent.containerCreated.injEq] at heq
        obtain ⟨ht, hj⟩ := heq
        exact ⟨0, by simp, by omega, by simp [msgsDur, ht]⟩
      · simp at heq
      · obtain ⟨m, hm, hj, ht⟩ := (ih _ _ _ _).mp hmem
        refine ⟨m + 1, by simpa using hm, by omega, ?_⟩
        simp only [List.take, msgsDur, typeTextEnd] at ht ⊢
        omega
    · rintro ⟨m, hm, hj, ht⟩
      cases m with
      | zero =>
        left; left
        simp only [List.take, msgsDur] at ht
        simp [ht, hj]
      | succ m' =>
        right
        refine (ih _ _ _ _).mpr ⟨m', by simpa using hm, by omega, ?_⟩
        simp only [List.take, msgsDur, typeTextEnd] at ht ⊢
        omega

theorem runMsgs_typed_mem (lens : List ℕ) :
    ∀ (t0 i0 t j c : ℕ),
      ((t, ChatEvent.charTyped j c) ∈ runMsgs t0 i0 lens ↔
        ∃ m < lens.length, j = i0 + m ∧ c < lens.getD m 0 ∧
          t = t0 + msgsDur (lens.take m) + 50 * (c + 1)) := by
  induction lens with
  | nil => simp [runMsgs]
  | cons len rest ih =>
    intro t0 i0 t j c
    simp only [runMsgs, List.mem_cons, List.mem_append, typeTextEvents,
      List.mem_map, List.mem_range]
    constructor
    · rintro ((heq | ⟨a, ha, heq⟩) | hmem)
      · simp at heq
      · simp only [Prod.mk.injEq, ChatEvent.charTyped.injEq] at heq
        obtain ⟨ht, hj, hc⟩ := heq
        refine ⟨0, by simp, by omega, ?_, ?_⟩
        · simp only [List.getD_cons_zero]
          omega
        · simp only [List.take_zero, msgsDur]
          omega
      · obtain ⟨m, hm, hj, hc, ht⟩ := (ih _ _ _ _ _).mp hmem
        refine ⟨m + 1, by simpa using hm, by omega, by simpa using hc, ?_⟩
        simp only [List.take, msgsDur, typeTextEnd] at ht ⊢
        omega
    · rintro ⟨m, hm, hj, hc, ht⟩
      cases m with
      | zero =>
        left; right
        refine ⟨c, by simp only [List.getD_cons_zero] at hc; omega, ?_⟩
        simp only [List.take_zero, msgsDur] at ht
        simp only [Prod.mk.injEq, ChatEvent.charTyped.injEq, and_true]
        omega
      | succ m' =>
        right
        refine (ih _ _ _ _ _).mpr
          ⟨m', by simpa using hm, by omega, by simpa using hc, ?_⟩
        simp only [List.take, msgsDur, typeTextEnd] at ht ⊢
        omega

theorem runMsgs_time_ub (lens : List ℕ) :
    ∀ (t0 i0 : ℕ) (p : ℕ × ChatEvent), p ∈ runMsgs t0 i0 lens →
      p.1 < t0 + msgsDur lens := by
  induction lens with
  | nil => simp [runMsgs]
  | cons len rest ih =>
    intro t0 i0 p hp
    simp only [runMsgs, List.mem_cons, List.mem_append, typeTextEvents,
      List.mem_map, List.mem_range] at hp
    simp only [msgsDur]
    rcases hp with (heq | ⟨a, ha, heq⟩) | hmem
    · subst heq; simp
    · have : p.1 = t0 + 50 * (a + 1) := by rw [← heq]
      omega
    · have := ih _ _ _ hmem
      simp only [typeTextEnd] at this
      omega

theorem msgsDur_take_succ (lens : List ℕ) :
    ∀ (j : ℕ), j < lens.length →
      msgsDur (lens.take (j + 1)) =
        msgsDur (lens.take j) + 50 * (lens.getD j 0 + 1) + 1500 := by
  induction lens with
  | nil => simp
  | cons len rest ih =>
    intro j hj
    cases j with
    | zero => simp [msgsDur]
    | succ j' =>
      simp only [List.take, msgsDur, List.getD_cons_succ]
      rw [ih j' (by simpa using hj)]
      omega

/-- **C3.**  Chat-timeline playback is strictly sequential.  For every script
(given by its per-message lengths `lens`) and every playback cycle `k`:
message containers are created exactly once each, in script order, at
`createTime`; character `c` of message `j` is appended exactly 50 time-units
after its predecessor (at `createTime + 50*(c+1)`); the container of message
`j+1` is created exactly 1500 time-units after message `j`'s typing interval
resolves, hence after `j`'s full text is typed; every event of cycle `k`
precedes the end of its message loop; the next cycle starts exactly 5000
time-units after the loop ends, restarting from message 0 — for every `k`,
an infinite loop. -/
theorem chat_timeline_correct (lens : List ℕ) (k : ℕ) :
    (∀ t j, ((t, ChatEvent.containerCreated j) ∈ chatCycle lens k ↔
        j < lens.length ∧ t = createTime lens k j)) ∧
    (∀ t j c, ((t, ChatEvent.charTyped j c) ∈ chatCycle lens k ↔
        j < lens.length ∧ c < lens.getD j 0 ∧
          t = createTime lens k j + 50 * (c + 1))) ∧
    (∀ j, j + 1 < lens.length →
        createTime lens k (j + 1) =
          typeTextEnd (lens.getD j 0) (createTime lens k j) + 1500) ∧
    (∀ t j c, j + 1 < lens.length →
        (t, ChatEvent.charTyped j c) ∈ chatCycle lens k →
          t < createTime lens k (j + 1)) ∧
    (∀ p ∈ chatCycle lens k, p.1 < cycleStart lens k + msgsDur lens) ∧
    cycleStart lens (k + 1) = cycleStart lens k + msgsDur lens + 5000 ∧
    (0 < lens.length →
      (cycleStart lens (k + 1), ChatEvent.containerCreated 0) ∈
        chatCycle lens (k + 1)) := by
  have hcreated : ∀ t j, ((t, ChatEvent.containerCreated j) ∈ chatCycle lens k ↔
      j < lens.length ∧ t = createTime lens k j) := by
    intro t j
    rw [chatCycle, runMsgs_created_mem]
    constructor
    · rintro ⟨m, hm, hj, ht⟩
      have hmj : m = j := by omega
      subst hmj
      exact ⟨hm, by simp only [createTime]; omega⟩
    · rintro ⟨hj, ht⟩
      refine ⟨j, hj, by omega, ?_⟩
      simp only [createTime] at ht
      omega
  have htyped : ∀ t j c, ((t, ChatEvent.charTyped j c) ∈ chatCycle lens k ↔
      j < lens.length ∧ c < lens.getD j 0 ∧
        t = createTime lens k j + 50 * (c + 1)) := by
    intro t j c
    rw [chatCycle, runMsgs_typed_mem]
    constructor
    · rintro ⟨m, hm, hj, hc, ht⟩
      have hm' : m = j := by omega
      subst hm'
      exact ⟨hm, hc, by simp only [createTime]; omega⟩
    · rintro ⟨hj, hc, ht⟩
      refine ⟨j, hj, by omega, hc, ?_⟩
      simp only [createTime] at ht
      omega
  have hdelay : ∀ j, j + 1 < lens.length →
      createTime lens k (j + 1) =
        typeTextEnd (lens.getD j 0) (createTime lens k j) + 1500 := by
    intro j hj
    simp only [createTime, typeTextEnd]
    rw [msgsDur_take_succ lens j (by omega)]
    omega
  refine ⟨hcreated, htyped, hdelay, ?_, ?_, ?_, ?_⟩
  · intro t j c hj hmem
    obtain ⟨hjl, hc, ht⟩ := (htyped t j c).mp hmem
    rw [hdelay j hj]
    simp only [typeTextEnd]
    omega
  · intro p hp
    exact runMsgs_time_ub lens _ _ p hp
  · simp only [cycleStart]
    ring
  · intro hlen
    have : createTime lens (k + 1) 0 = cycleStart lens (k + 1) := by
      simp [createTime, msgsDur]
    exact (runMsgs_created_mem lens _ _ _ _).mpr
      ⟨0, hlen, rfl, by simp [msgsDur]⟩

/-- Witness for `chat_timeline_correct` on the concrete chat script of the
page: the third message container appears exactly 1500 time-units after the
second message's typing resolves. -/
theorem chat_timeline_correct_witness :
    1 + 1 < telegramLens.length ∧
      createTime telegramLens 0 (1 + 1) =
        typeTextEnd (telegramLens.getD 1 0) (createTime telegramLens 0 1) + 1500 :=
  ⟨by decide, (chat_timeline_correct telegramLens 0).2.2.1 1 (by decide)⟩

/-! ## TelegramAnimator.init visibility guard (src/script.js lines 459-490)

`init` installs an IntersectionObserver whose callback starts a playback only
when the entry intersects and `isAnimating` is false; `startAnimation`'s first
statements synchronously set `isAnimating = true`, clear the container and
reset `currentMessageIndex`. -/

/-- The mutable fields of `TelegramAnimator` touched by the guard. -/
structure AnimatorState where
  isAnimating : Bool
  currentMessageIndex : ℕ
  renderedMessages : List ℕ
deriving DecidableEq

/-- The observer callback of `TelegramAnimator.init` for one entry, returning
the state after the callback together with whether a playback was started.
When a playback starts, the synchronous prefix of `startAnimation` runs: the
`isAnimating` flag is raised, the container is cleared and the message index
reset.  Otherwise the state is returned untouched: the notification is
dropped, nothing is queued. -/
def telegramObserverCallback (s : AnimatorState) (isIntersecting : Bool) :
    AnimatorState × Bool :=
  if isIntersecting && !s.isAnimating then
    ({ isAnimating := true, currentMessageIndex := 0, renderedMessages := [] },
      true)
  else (s, false)

/-- **C4.** While `isAnimating` is true, every visibility-entry notification
for the chat demo is ignored — the state is returned unchanged (nothing is
queued) and no playback is started; and a playback is started by a
notification only when `isAnimating` was false (and then the flag is raised
again, so a second concurrent playback can never start). -/
theorem telegram_guard :
    (∀ (s : AnimatorState) (b : Bool), s.isAnimating = true →
      telegramObserverCallback s b = (s, false)) ∧
    (∀ (s : AnimatorState) (b : Bool), (telegramObserverCallback s b).2 = true →
      s.isAnimating = false ∧ (telegramObserverCallback s b).1.isAnimating = true) := by
  constructor
  · intro s b h
    simp [telegramObserverCallback, h]
  · intro s b h
    unfold telegramObserverCallback at h ⊢
    by_cases hc : (b && !s.isAnimating) = true
    · simp only [Bool.and_eq_true, Bool.not_eq_true'] at hc
      simp [hc.1, hc.2]
    · simp [hc] at h

/-- Witness for `telegram_guard`: with a playback running (flag raised), an
intersecting notification is dropped and the state is untouched. -/
theorem telegram_guard_witness :
    (⟨true, 3, [0, 1]⟩ : AnimatorState).isAnimating = true ∧
      telegramObserverCallback ⟨true, 3, [0, 1]⟩ true = (⟨true, 3, [0, 1]⟩, false) :=
  ⟨rfl, telegram_guard.1 ⟨true, 3, [0, 1]⟩ true rfl⟩

/-! ## NavigationController.updateActiveLink (src/script.js lines 152-170)

For every section whose window `[offsetTop, offsetTop + offsetHeight)`
contains `scrollY + 100`, the handler strips `active` from every nav link and
re-adds it to the link whose `href` is `'#' + id`; with several containing
sections the later one overwrites the earlier. -/

/-- A `section[id]` element: its id, `offsetTop` and `offsetHeight`. -/
structure PageSection where
  id : String
  offsetTop : ℤ
  offsetHeight : ℤ
deriving DecidableEq

/-- A `.nav-link` element: its `href` attribute and whether it currently
carries the `active` class. -/
structure NavLink where
  href : String
  active : Bool
deriving DecidableEq

/-- The condition `scrollPos >= sectionTop && scrollPos < sectionTop +
sectionHeight` of `updateActiveLink`. -/
def inWindow (sec : PageSection) (scrollPos : ℤ) : Bool :=
  sec.offsetTop ≤ scrollPos && scrollPos < sec.offsetTop + sec.offsetHeight

/-- The inner `navLinks.forEach` of `updateActiveLink`: strip `active` from
every link, re-add it exactly on links whose `href` is `'#' + id`. -/
def setActiveFor (sectionId : String) (links : List NavLink) : List NavLink :=
  links.map fun l => { l with active := l.href == "#" ++ sectionId }

/-- `NavigationController.updateActiveLink`: `scrollPos = scrollY + 100`;
iterate over the sections in document order, re-assigning the active link for
every section whose window contains `scrollPos`. -/
def updateActiveLink (sections : List PageSection) (links : List NavLink)
    (scrollY : ℤ) : List NavLink :=
  sections.foldl
    (fun ls sec => if inWindow sec (scrollY + 100) then setActiveFor sec.id ls
      else ls)
    links

theorem setActiveFor_setActiveFor (a b : String) (links : List NavLink) :
    setActiveFor a (setActiveFor b links) = setActiveFor a links := by
  unfold setActiveFor
  rw [List.map_map]
  rfl

/-- `updateActiveLink` keeps the links unchanged when no section's window
contains `scrollY + 100`, and otherwise re-assigns the active class according
to the last containing section. -/
theorem updateActiveLink_eq (sections : List PageSection)
    (links : List NavLink) (scrollY : ℤ) :
    updateActiveLink sections links scrollY =
      match (sections.filter fun sec => inWindow sec (scrollY + 100)).getLast? with
      | none => links
      | some s => setActiveFor s.id links := by
  induction sections generalizing links with
  | nil => simp [updateActiveLink]
  | cons sec rest ih =>
    simp only [updateActiveLink, List.foldl_cons, List.filter_cons]
    by_cases hin : inWindow sec (scrollY + 100) = true
    · simp only [hin, if_true]
      have h2 := ih (setActiveFor sec.id links)
      simp only [updateActiveLink] at h2
      rw [h2]
      cases hl : (rest.filter fun s => inWindow s (scrollY + 100)).getLast? with
      | none =>
        have hnil : rest.filter (fun s => inWindow s (scrollY + 100)) = [] :=
          List.getLast?_eq_none_iff.mp hl
        simp [hnil]
      | some s =>
        rw [getLast?_cons_of_getLast? sec hl]
        exact setActiveFor_setActiveFor s.id sec.id links
    · simp only [Bool.not_eq_true] at hin
      simp only [hin, Bool.false_eq_true, if_false]
      have h2 := ih links
      simp only [updateActiveLink] at h2
      exact h2

/-- **C5.** After `updateActiveLink`, when `s` is the last section in
document order whose window `[offsetTop, offsetTop + offsetHeight)` contains
`scrollY + 100`, a navigation link carries the `active` class exactly when
its `href` is `'#' + s.id`. -/
theorem updateActiveLink_active (sections : List PageSection)
    (links : List NavLink) (scrollY : ℤ) (s : PageSection)
    (hlast : (sections.filter fun sec => inWindow sec (scrollY + 100)).getLast?
      = some s) :
    ∀ l ∈ updateActiveLink sections links scrollY,
      l.active = (l.href == "#" ++ s.id) := by
  rw [updateActiveLink_eq, hlast]
  intro l hl
  unfold setActiveFor at hl
  obtain ⟨l0, -, rfl⟩ := List.mem_map.mp hl
  rfl

/-- The spec's concrete scroll-tracker scenario: three sections with windows
`[0,300)`, `[300,800)`, `[800,1200)`. -/
def demoSections : List PageSection :=
  [⟨"hero", 0, 300⟩, ⟨"features", 300, 500⟩, ⟨"pricing", 800, 400⟩]

/-- Navigation links for the concrete scroll-tracker scenario. -/
def demoLinks : List NavLink :=
  [⟨"#hero", true⟩, ⟨"#features", false⟩, ⟨"#pricing", false⟩]

/-- Witness for `updateActiveLink_active`: with windows `[0,300)`, `[300,800)`,
`[800,1200)` and `scrollY = 450`, the second section is the (last) containing
one and exactly the `#features` link is active. -/
theorem updateActiveLink_active_witness :
    ((demoSections.filter fun sec => inWindow sec (450 + 100)).getLast? =
        some ⟨"features", 300, 500⟩) ∧
      ∀ l ∈ updateActiveLink demoSections demoLinks 450,
        l.active = (l.href == "#" ++ "features") :=
  ⟨by decide,
    updateActiveLink_active demoSections demoLinks 450 ⟨"features", 300, 500⟩
      (by decide)⟩

/-! ## Scroll-progress indicator (src/script.js lines 767-772)

On scroll, `progress = scrollY / (documentHeight - viewportHeight) * 100`
and the bar's width is set to `Math.min(progress, 100)` percent.  Note the
code clamps only from above. -/

/-- The width (in percent) assigned to the progress bar by the scroll
handler: `scrolled = scrollY`, `maxScroll = documentHeight - viewportHeight`,
`width = min(scrolled / maxScroll * 100, 100)`. -/
def scrollProgressWidth (scrollY documentHeight viewportHeight : ℚ) : ℚ :=
  min (scrollY / (documentHeight - viewportHeight) * 100) 100

/-- **C6 (counterexample).**  The claim says the width is clamped to
`[0, 100]` and "never goes below 0% regardless of overscroll"; but the code
clamps only with `Math.min(·, 100)`: overscrolled above the top
(`scrollY = -100`, with `documentHeight - viewportHeight = 1000`) the
assigned width is `-10%`, strictly below 0. -/
theorem scrollProgressWidth_not_clamped_below :
    scrollProgressWidth (-100) 1100 100 = -10 ∧
      scrollProgressWidth (-100) 1100 100 < 0 := by
  constructor <;> norm_num [scrollProgressWidth]

/-- **C6 (amended).** The progress-bar width is clamped from above only: it
never exceeds 100% for any scroll position (including overscroll past the
bottom); and whenever `scrollY ≥ 0` (the ordinary range of scroll positions)
and the document is taller than the viewport, the width lies in `[0, 100]`,
equals 0% at `scrollY = 0` and equals 100% at
`scrollY = documentHeight - viewportHeight`. -/
theorem scrollProgressWidth_correct (scrollY dh vh : ℚ) (h0 : 0 ≤ scrollY)
    (hmax : vh < dh) :
    (∀ y : ℚ, scrollProgressWidth y dh vh ≤ 100) ∧
    0 ≤ scrollProgressWidth scrollY dh vh ∧
    scrollProgressWidth 0 dh vh = 0 ∧
    scrollProgressWidth (dh - vh) dh vh = 100 := by
  have hpos : 0 < dh - vh := by linarith
  refine ⟨fun y => min_le_right _ _, ?_, ?_, ?_⟩
  · apply le_min
    · positivity
    · norm_num
  · simp [scrollProgressWidth]
  · rw [scrollProgressWidth, div_self (ne_of_gt hpos)]
    norm_num

/-- Witness for `scrollProgressWidth_correct` at `scrollY = 500`,
`documentHeight = 1100`, `viewportHeight = 100`. -/
theorem scrollProgressWidth_correct_witness :
    ((0 : ℚ) ≤ 500 ∧ (100 : ℚ) < 1100) ∧
      ((∀ y : ℚ, scrollProgressWidth y 1100 100 ≤ 100) ∧
        0 ≤ scrollProgressWidth 500 1100 100 ∧
        scrollProgressWidth 0 1100 100 = 0 ∧
        scrollProgressWidth (1100 - 100) 1100 100 = 100) :=
  ⟨⟨by norm_num, by norm_num⟩,
    scrollProgressWidth_correct 500 1100 100 (by norm_num) (by norm_num)⟩

/-! ## FormController.validateField (src/script.js lines 242-272)

`validateField` trims the field's value, removes any previous `error` class,
checks the rule for the field's `name` attribute (names of length ≥ 2 for
`name`/`company`, the regex `/^[^\s@]+@[^\s@]+\.[^\s@]+$/` for `email`,
non-emptiness for `team-size`, no rule otherwise), re-adds the `error` class
exactly when the check failed, and returns the result. -/

/-- The host language's whitespace class (`\s` of the regex and the
characters removed by `trim`): tab, line feed, vertical tab, form feed,
carriage return, space, no-break space, the Unicode space separators, line
and paragraph separators, and the BOM. -/
def jsWhitespace (c : Char) : Bool :=
  c.toNat ∈ [9, 10, 11, 12, 13, 32, 160, 5760, 8192, 8193, 8194, 8195, 8196,
    8197, 8198, 8199, 8200, 8201, 8202, 8232, 8233, 8239, 8287, 12288, 65279]

/-- `value.trim()`: strip whitespace from both ends. -/
def jsTrim (cs : List Char) : List Char :=
  (((cs.dropWhile jsWhitespace).reverse.dropWhile jsWhitespace).reverse)

/-- The character class `[^\s@]` of the email regex. -/
def emailChar (c : Char) : Bool :=
  !jsWhitespace c && c != '@'

/-- The anchored regex `/^[^\s@]+@[^\s@]+\.[^\s@]+$/` as a decision
procedure.  Because `'@'` is excluded from the class, the leading `[^\s@]+`
is forced to the maximal class-run before the first non-class character,
which must be `'@'`; the remainder must consist of class characters and
contain a `'.'` that is neither its first nor its last character. -/
def emailRegexTest (cs : List Char) : Bool :=
  match cs.dropWhile emailChar with
  | '@' :: dom =>
    !(cs.takeWhile emailChar).isEmpty && dom.all emailChar &&
      (dom.drop 1).dropLast.contains '.'
  | _ => false

/-- UTF-16 length, the `length` of the host language's strings: astral code
points count twice. -/
def utf16Length (cs : List Char) : ℕ :=
  (cs.map fun c => if 0x10000 ≤ c.toNat then 2 else 1).sum

/-- `FormController.validateField`, reduced to its returned validity: the
trimmed value against the rule selected by the field's `name` attribute. -/
def validateField (fieldName value : String) : Bool :=
  let v := jsTrim value.data
  match fieldName with
  | "name" => decide (2 ≤ utf16Length v)
  | "email" => emailRegexTest v
  | "company" => decide (2 ≤ utf16Length v)
  | "team-size" => !v.isEmpty
  | _ => true

/-- Whether the field carries the `error` class after `validateField`: the
class is removed up front and re-added exactly when the check failed. -/
def errorClassAfter (fieldName value : String) : Bool :=
  !validateField fieldName value

/-- Modelled from the spec (the shape the spec states for accepted email
values): `local@domain.tld` — non-empty runs of characters that are neither
whitespace nor `'@'` around a single `'@'`, with at least one `'.'` splitting
the part after `'@'` into non-empty `domain` and `tld` runs. -/
def emailShape (cs : List Char) : Prop :=
  ∃ lo d1 d2 : List Char,
    cs = lo ++ '@' :: (d1 ++ '.' :: d2) ∧
    lo ≠ [] ∧ d1 ≠ [] ∧ d2 ≠ [] ∧
    (∀ c ∈ lo, emailChar c = true) ∧ (∀ c ∈ d1, emailChar c = true) ∧
    (∀ c ∈ d2, emailChar c = true)

theorem takeWhile_dropWhile_append_cons (p : Char → Bool) (l1 : List Char)
    (a : Char) (l2 : List Char) (h1 : ∀ c ∈ l1, p c = true)
    (ha : p a = false) :
    (l1 ++ a :: l2).takeWhile p = l1 ∧ (l1 ++ a :: l2).dropWhile p = a :: l2 := by
  induction l1 with
  | nil => simp [List.takeWhile, List.dropWhile, ha]
  | cons c cs ih =>
    have hc : p c = true := h1 c (List.mem_cons_self c cs)
    have := ih fun x hx => h1 x (List.mem_cons_of_mem c hx)
    simp [List.takeWhile, List.dropWhile, hc, this.1, this.2]

theorem exists_split_of_mem_dropLast {a : Char} :
    ∀ {l : List Char}, a ∈ l.dropLast → ∃ l1 l2, l = l1 ++ a :: l2 ∧ l2 ≠ [] := by
  intro l
  induction l with
  | nil => simp
  | cons x t ih =>
    intro hmem
    cases t with
    | nil => simp at hmem
    | cons y t' =>
      rw [List.dropLast_cons₂] at hmem
      rcases List.mem_cons.mp hmem with rfl | hmem
      · exact ⟨[], y :: t', rfl, by simp⟩
      · obtain ⟨l1, l2, heq, hne⟩ := ih hmem
        exact ⟨x :: l1, l2, by rw [List.cons_append, ← heq], hne⟩

/-- The executable regex test decides exactly the spec's
`local@domain.tld` shape. -/
theorem emailRegexTest_iff_emailShape (cs : List Char) :
    emailRegexTest cs = true ↔ emailShape cs := by
  constructor
  · intro h
    unfold emailRegexTest at h
    split at h
    case h_2 => exact absurd h (by simp)
    case h_1 dom heq =>
      simp only [Bool.and_eq_true, Bool.not_eq_true'] at h
      obtain ⟨⟨hne, hall⟩, hdot⟩ := h
      have hlo : cs.takeWhile emailChar ≠ [] := by
        intro hnil
        rw [hnil] at hne
        simp at hne
      have hcs : cs = cs.takeWhile emailChar ++ '@' :: dom := by
        conv_lhs => rw [← List.takeWhile_append_dropWhile (p := emailChar) (l := cs)]
        rw [heq]
      have hmlo : ∀ c ∈ cs.takeWhile emailChar, emailChar c = true :=
        fun c hc => List.mem_takeWhile_imp hc
      have hmdom : ∀ c ∈ dom, emailChar c = true := by
        intro c hc
        exact List.all_eq_true.mp hall c hc
      have hdot' : '.' ∈ (dom.drop 1).dropLast := by
        simpa [List.contains, List.elem_eq_mem] using hdot
      cases dom with
      | nil => simp at hdot'
      | cons d0 rest =>
        simp only [List.drop_succ_cons, List.drop_zero] at hdot'
        obtain ⟨l1, l2, hsplit, hl2⟩ := exists_split_of_mem_dropLast hdot'
        refine ⟨cs.takeWhile emailChar, d0 :: l1, l2,
          ?_, hlo, by simp, hl2, hmlo, ?_, ?_⟩
        · conv_lhs => rw [hcs]
          rw [hsplit]
          simp
        · intro c hc
          rcases List.mem_cons.mp hc with rfl | hc
          · exact hmdom c (List.mem_cons_self _ _)
          · refine hmdom c (List.mem_cons_of_mem _ ?_)
            rw [hsplit]
            exact List.mem_append_left _ hc
        · intro c hc
          refine hmdom c (List.mem_cons_of_mem _ ?_)
          rw [hsplit]
          exact List.mem_append_right _ (List.mem_cons_of_mem _ hc)
  · rintro ⟨lo, d1, d2, rfl, hlo, hd1, hd2, hmlo, hmd1, hmd2⟩
    have hat : emailChar '@' = false := by decide
    obtain ⟨htw, hdw⟩ :=
      takeWhile_dropWhile_append_cons emailChar lo '@' (d1 ++ '.' :: d2) hmlo hat
    unfold emailRegexTest
    rw [hdw, htw]
    simp only [Bool.and_eq_true, Bool.not_eq_true']
    refine ⟨⟨?_, ?_⟩, ?_⟩
    · cases lo with
      | nil => exact absurd rfl hlo
      | cons a l => simp
    · rw [List.all_eq_true]
      intro c hc
      rcases List.mem_append.mp hc with hc | hc
      · exact hmd1 c hc
      · rcases List.mem_cons.mp hc with rfl | hc
        · decide
        · exact hmd2 c hc
    · cases d1 with
      | nil => exact absurd rfl hd1
      | cons e d1' =>
        simp only [List.cons_append, List.drop_succ_cons, List.drop_zero]
        rw [List.dropLast_append_of_ne_nil _ (by simp)]
        have : '.' ∈ d1' ++ ('.' :: d2).dropLast := by
          cases d2 with
          | nil => exact absurd rfl hd2
          | cons f d2' =>
            refine List.mem_append_right _ ?_
            simp
        simpa [List.contains, List.elem_eq_mem] using this

/-- **C7.** `validateField` accepts a `name` or `company` value iff its
trimmed length is at least 2, a `team-size` value iff it is non-empty after
trimming, and an `email` value iff its trimmed value has the
`local@domain.tld` shape (non-empty runs of non-whitespace, non-`'@'`
characters around a single `'@'`, with a `'.'` splitting the domain part
into non-empty runs); in particular `"a@b"` is rejected and `"a@b.com"` is
accepted. -/
theorem validateField_rules (value : String) :
    (validateField "name" value = true ↔ 2 ≤ utf16Length (jsTrim value.data)) ∧
    (validateField "company" value = true ↔
      2 ≤ utf16Length (jsTrim value.data)) ∧
    (validateField "team-size" value = true ↔ jsTrim value.data ≠ []) ∧
    (validateField "email" value = true ↔ emailShape (jsTrim value.data)) ∧
    validateField "email" "a@b" = false ∧
    validateField "email" "a@b.com" = true := by
  refine ⟨?_, ?_, ?_, ?_, by decide, by decide⟩
  · simp [validateField]
  · simp [validateField]
  · simp [validateField]
  · simpa [validateField] using emailRegexTest_iff_emailShape (jsTrim value.data)

/-! ## FormController.handleSubmit (src/script.js lines 274-336)

`handleSubmit` validates every required input (each via `validateField`),
blocks the submission with a form-level error when any fails, and otherwise
enters the loading state (`setLoadingState(true)` disables the submit button),
awaits the simulated API call, shows the success or error banner, and in the
`finally` block always clears the loading state. -/

/-- A required form input: its `name` attribute and current value. -/
structure FormField where
  name : String
  value : String
deriving DecidableEq

/-- The validation loop of `handleSubmit`: `isFormValid` stays true iff every
required input passes `validateField`. -/
def allRequiredValid (fields : List FormField) : Bool :=
  fields.all fun f => validateField f.name f.value

/-- The observable steps of one `handleSubmit` run, in order. -/
inductive SubmitEvent where
  /-- A form-level error banner was shown. -/
  | showError
  /-- `setLoadingState` was called with the given flag. -/
  | setLoading (isLoading : Bool)
  /-- `simulateApiCall` was started. -/
  | apiCall
  /-- The success banner was shown. -/
  | showSuccess
  /-- `this.form.reset()` ran. -/
  | formReset
deriving DecidableEq

/-- The state of the submit button after `setLoadingState`. -/
structure SubmitButton where
  disabled : Bool
  loadingVisible : Bool
deriving DecidableEq

/-- `FormController.setLoadingState`: disables the button and shows the
spinner while loading, restores both otherwise. -/
def setLoadingState (isLoading : Bool) : SubmitButton :=
  if isLoading then ⟨true, true⟩ else ⟨false, false⟩

/-- `FormController.handleSubmit` as its ordered event trace; `apiOk` stands
for the pseudo-random outcome of `simulateApiCall` (`Math.random() > 0.1`). -/
def handleSubmit (fields : List FormField) (apiOk : Bool) : List SubmitEvent :=
  if !allRequiredValid fields then
    [SubmitEvent.showError]
  else if apiOk then
    [SubmitEvent.setLoading true, SubmitEvent.apiCall, SubmitEvent.showSuccess,
      SubmitEvent.formReset, SubmitEvent.setLoading false]
  else
    [SubmitEvent.setLoading true, SubmitEvent.apiCall, SubmitEvent.showError,
      SubmitEvent.setLoading false]

/-- **C8.** If any required field fails validation, the submission is
blocked: the trace is exactly a form-level error message — the loading state
is never entered and the simulated API call never starts.  If all required
fields pass, the run begins by entering the loading state (which disables
the submit control, preventing double-submission), the API call is made, and
the run always ends by clearing the loading state, both on success and on
failure. -/
theorem handleSubmit_correct (fields : List FormField) (apiOk : Bool) :
    (allRequiredValid fields = false →
      handleSubmit fields apiOk = [SubmitEvent.showError] ∧
      (∀ b, SubmitEvent.setLoading b ∉ handleSubmit fields apiOk) ∧
      SubmitEvent.apiCall ∉ handleSubmit fields apiOk) ∧
    (allRequiredValid fields = true →
      (handleSubmit fields apiOk).head? = some (SubmitEvent.setLoading true) ∧
      (setLoadingState true).disabled = true ∧
      SubmitEvent.apiCall ∈ handleSubmit fields apiOk ∧
      (handleSubmit fields apiOk).getLast? =
        some (SubmitEvent.setLoading false)) := by
  constructor
  · intro h
    simp [handleSubmit, h]
  · intro h
    cases apiOk <;> simp [handleSubmit, h, setLoadingState]

/-- Witness for `handleSubmit_correct`: a form whose required fields are all
valid, with a successful simulated call. -/
theorem handleSubmit_correct_witness :
    allRequiredValid [⟨"name", "Анна"⟩, ⟨"email", "a@b.com"⟩,
        ⟨"company", "HT"⟩, ⟨"team-size", "5"⟩] = true ∧
      ((handleSubmit [⟨"name", "Анна"⟩, ⟨"email", "a@b.com"⟩,
          ⟨"company", "HT"⟩, ⟨"team-size", "5"⟩] true).head? =
          some (SubmitEvent.setLoading true) ∧
        (setLoadingState true).disabled = true ∧
        SubmitEvent.apiCall ∈ handleSubmit [⟨"name", "Анна"⟩,
          ⟨"email", "a@b.com"⟩, ⟨"company", "HT"⟩, ⟨"team-size", "5"⟩] true ∧
        (handleSubmit [⟨"name", "Анна"⟩, ⟨"email", "a@b.com"⟩,
            ⟨"company", "HT"⟩, ⟨"team-size", "5"⟩] true).getLast? =
          some (SubmitEvent.setLoading false)) :=
  ⟨by decide,
    (handleSubmit_correct [⟨"name", "Анна"⟩, ⟨"email", "a@b.com"⟩,
      ⟨"company", "HT"⟩, ⟨"team-size", "5"⟩] true).2 (by decide)⟩

/-- **C10.** For every form field whose `name` attribute is not one of
`name`, `email`, `company`, `team-size`, `validateField` returns true and
leaves the field without the `error` class, whatever the value; and whenever
the validation loop blocks a submission, some field with one of those four
names failed — other fields can never block submission on their own. -/
theorem validateField_other_fields :
    (∀ fieldName value : String,
      fieldName ∉ (["name", "email", "company", "team-size"] : List String) →
      validateField fieldName value = true ∧
        errorClassAfter fieldName value = false) ∧
    (∀ fields : List FormField, allRequiredValid fields = false →
      ∃ f ∈ fields,
        f.name ∈ (["name", "email", "company", "team-size"] : List String)) := by
  have hother : ∀ fieldName value : String,
      fieldName ∉ (["name", "email", "company", "team-size"] : List String) →
      validateField fieldName value = true := by
    intro fieldName value h
    unfold validateField
    split
    · exact absurd (by simp) h
    · exact absurd (by simp) h
    · exact absurd (by simp) h
    · exact absurd (by simp) h
    · rfl
  constructor
  · intro fieldName value h
    refine ⟨hother fieldName value h, ?_⟩
    unfold errorClassAfter
    rw [hother fieldName value h]
    rfl
  · intro fields hblocked
    unfold allRequiredValid at hblocked
    rw [List.all_eq_false] at hblocked
    obtain ⟨f, hf, hval⟩ := hblocked
    refine ⟨f, hf, ?_⟩
    by_contra hnot
    exact hval (hother f.name f.value hnot)

/-- Witness for `validateField_other_fields`: the optional `message` field is
accepted with an empty value and carries no error class. -/
theorem validateField_other_fields_witness :
    ("message" ∉ (["name", "email", "company", "team-size"] : List String)) ∧
      (validateField "message" "" = true ∧
        errorClassAfter "message" "" = false) :=
  ⟨by decide, validateField_other_fields.1 "message" "" (by decide)⟩

/-! ## TabController.switchTab (src/script.js lines 194-212)

`switchTab` strips the `active` class from every tab button and re-adds it to
the buttons whose `data-tab` (or, when that is falsy, `data-example`)
attribute equals the requested id, then does the same for the content panels
keyed by element id `tab-<id>` / `example-<id>`. -/

/-- A `.tab-btn` / `.example-tab` element: its two data attributes (absent
attribute = `none`) and whether it carries the `active` class. -/
structure TabButton where
  dataTab : Option String
  dataExample : Option String
  active : Bool
deriving DecidableEq

/-- A `.tab-content` / `.example-content` element: its `id` attribute and
whether it carries the `active` class. -/
structure TabPanel where
  id : Option String
  active : Bool
deriving DecidableEq

/-- The expression `button.getAttribute('data-tab') ||
button.getAttribute('data-example')`: `null` and the empty string are falsy,
so a missing or empty `data-tab` falls through to `data-example`. -/
def jsOrAttr (a b : Option String) : Option String :=
  match a with
  | some s => if s = "" then b else some s
  | none => b

/-- The tab id a button selects. -/
def buttonTabId (b : TabButton) : Option String :=
  jsOrAttr b.dataTab b.dataExample

/-- Whether a panel's element id matches the requested tab id. -/
def panelMatches (activeTabId : String) (p : TabPanel) : Bool :=
  p.id == some ("tab-" ++ activeTabId) ||
    p.id == some ("example-" ++ activeTabId)

/-- `TabController.switchTab`: every button's and panel's `active` class is
removed and re-added exactly on matches. -/
def switchTab (activeTabId : String) (bs : List TabButton)
    (ps : List TabPanel) : List TabButton × List TabPanel :=
  (bs.map fun b => { b with active := buttonTabId b == some activeTabId },
    ps.map fun p => { p with active := panelMatches activeTabId p })

/-- **C9.** After `switchTab id`, a button carries `active` exactly when its
`data-tab`/`data-example` attribute equals `id`, and a panel exactly when its
element id is `tab-<id>` or `example-<id>` (so when nothing matches, nothing
is active); and when at most one button (resp. panel) matches — as with the
page's unique ids — at most one button (resp. panel) is active. -/
theorem switchTab_active (activeTabId : String) (bs : List TabButton)
    (ps : List TabPanel) :
    (∀ b ∈ (switchTab activeTabId bs ps).1,
      b.active = (buttonTabId b == some activeTabId)) ∧
    (∀ p ∈ (switchTab activeTabId bs ps).2,
      p.active = panelMatches activeTabId p) ∧
    ((bs.countP fun b => buttonTabId b == some activeTabId) ≤ 1 →
      ((switchTab activeTabId bs ps).1.countP fun b => b.active) ≤ 1) ∧
    ((ps.countP fun p => panelMatches activeTabId p) ≤ 1 →
      ((switchTab activeTabId bs ps).2.countP fun p => p.active) ≤ 1) := by
  refine ⟨?_, ?_, ?_, ?_⟩
  · intro b hb
    obtain ⟨b0, -, rfl⟩ := List.mem_map.mp hb
    simp [buttonTabId, jsOrAttr]
  · intro p hp
    obtain ⟨p0, -, rfl⟩ := List.mem_map.mp hp
    simp [panelMatches]
  · intro h
    simpa [switchTab, List.countP_map, Function.comp, buttonTabId, jsOrAttr]
      using h
  · intro h
    simpa [switchTab, List.countP_map, Function.comp, panelMatches] using h

/-- Witness for `switchTab_active`: two buttons and two panels with distinct
ids; switching to `"analytics"` activates exactly the matching pair. -/
theorem switchTab_active_witness :
    (([⟨some "analytics", none, false⟩, ⟨some "tasks", none, true⟩]
        : List TabButton).countP
          (fun b => buttonTabId b == some "analytics") ≤ 1) ∧
      ((switchTab "analytics"
          [⟨some "analytics", none, false⟩, ⟨some "tasks", none, true⟩]
          [⟨some "tab-analytics", false⟩, ⟨some "tab-tasks", true⟩]).1.countP
            fun b => b.active) ≤ 1 :=
  ⟨by decide,
    (switchTab_active "analytics"
      [⟨some "analytics", none, false⟩, ⟨some "tasks", none, true⟩]
      [⟨some "tab-analytics", false⟩, ⟨some "tab-tasks", true⟩]).2.2.1
        (by decide)⟩

end Script
